import Mathlib

/-!
Shallow embedding of the bank-statement extraction pipeline of this repository:
the pattern matcher, line parser, post-processor (deduplication and date sort),
text-layer backend, OCR backend control flow, the two timeout timers, and the
manual-entry CSV parser.

Strings are processed as lists of characters; the two regular expressions of the
source (a date pattern and an amount pattern) are embedded as deterministic
scanners that implement the leftmost-match, greedy-with-backtracking semantics
of JavaScript regular expressions for exactly these two patterns.
-/

/-- Whitespace class of the regular-expression escape for whitespace,
restricted to the ASCII whitespace characters. -/
def jsSpaceChar (c : Char) : Bool :=
  c = ' ' || c = '\t' || c = '\n' || c = '\r' || c = '\x0b' || c = '\x0c'

/-- ASCII digit test, the regular-expression digit class. -/
def isDigitChar (c : Char) : Bool :=
  '0' ≤ c && c ≤ '9'

/-- Word-character class of the regular-expression word-boundary assertion:
letters, digits and underscore. -/
def isWordChar (c : Char) : Bool :=
  c.isAlpha || isDigitChar c || c = '_'

/-- Strip pat from the front of the second list if it is there (case sensitive). -/
def dropStart : List Char → List Char → Option (List Char)
  | [], l => some l
  | _ :: _, [] => none
  | p :: ps, c :: cs => if p = c then dropStart ps cs else none

/-- Remove the first occurrence of pat as a contiguous substring, the behaviour of
the JavaScript String.replace with a plain-string pattern and empty replacement. -/
def replaceFirst : List Char → List Char → List Char
  | [], _ => []
  | c :: cs, pat =>
    match dropStart pat (c :: cs) with
    | some rest => rest
    | none => c :: replaceFirst cs pat

/-- Contiguous-substring test, the JavaScript String.includes. -/
def isSubstr (pat : List Char) : List Char → Bool
  | [] => pat.isEmpty
  | c :: cs => (dropStart pat (c :: cs)).isSome || isSubstr pat cs

/-- Surrounding-whitespace trim, the JavaScript String.trim on the ASCII
whitespace that occurs in statement text. -/
def trimChars (l : List Char) : List Char :=
  ((l.dropWhile jsSpaceChar).reverse.dropWhile jsSpaceChar).reverse

/-- ASCII lower-casing of one character. -/
def asciiLower (c : Char) : Char :=
  if 'A' ≤ c && c ≤ 'Z' then Char.ofNat (c.toNat + 32) else c

/-- ASCII lower-casing of a character list, the JavaScript String.toLowerCase
restricted to the ASCII range. -/
def lowerChars (l : List Char) : List Char :=
  l.map asciiLower

/-!
Amount pattern: optional dollar sign, optional whitespace, optional minus,
a nonempty run of digits or commas, a dot and exactly two digits.

The translation is deterministic although the regular expression is written
with greedy quantifiers: each quantified piece is followed by a piece that can
never match a character the quantifier could give back (whitespace is not a
minus or a digit, a digit or comma is never the required dot), so backtracking
can never turn a failed maximal attempt into a success, and each attempt either
succeeds with the maximal (greedy) extent or fails outright.
-/

/-- One attempt of the amount pattern at the head of the list. Returns the
matched characters and the rest of the input. -/
def tryAmount (l : List Char) : Option (List Char × List Char) :=
  let (dol, l1) :=
    match l with
    | '$' :: r => ([('$' : Char)], r)
    | _ => ([], l)
  let (ws, l2) := l1.span jsSpaceChar
  let (mns, l3) :=
    match l2 with
    | '-' :: r => ([('-' : Char)], r)
    | _ => ([], l2)
  let (run, l4) := l3.span (fun c => isDigitChar c || c = ',')
  match run, l4 with
  | [], _ => none
  | _ :: _, '.' :: d1 :: d2 :: r =>
    if isDigitChar d1 && isDigitChar d2 then
      some (dol ++ ws ++ mns ++ run ++ ['.', d1, d2], r)
    else none
  | _ :: _, _ => none

/-- Global scan of the amount pattern: leftmost matches, resuming after each
match, the behaviour of String.matchAll with the global flag. The fuel
argument only bounds the recursion; a successful attempt always consumes at
least one character, so fuel equal to the input length never runs out. -/
def amountScan : Nat → List Char → List (List Char)
  | 0, _ => []
  | _ + 1, [] => []
  | fuel + 1, c :: cs =>
    match tryAmount (c :: cs) with
    | some (m, r) => m :: amountScan fuel r
    | none => amountScan fuel cs

/-- All matches of the amount pattern, in order. -/
def amountMatches (l : List Char) : List (List Char) :=
  amountScan l.length l

/-- Test of the amount pattern, the RegExp.test used as the line pre-filter. -/
def amountTest (l : List Char) : Bool :=
  !(amountMatches l).isEmpty

/-!
Date pattern: a word boundary, then either one-or-two digits, a separator
(slash, minus or dot), one-or-two digits, a separator, and two-to-four digits,
or one-or-two digits, whitespace, a month abbreviation with optional further
letters and an optional dot, whitespace, and two-to-four digits; then a word
boundary. Case-insensitive, first match only.

Greedy backtracking matters here: the digit-group lengths are tried longest
first, and every candidate length of the final group is checked against the
trailing word boundary, exactly as the regular-expression engine does.
-/

/-- Separator class of the date pattern. -/
def sepChar (c : Char) : Bool :=
  c = '/' || c = '-' || c = '.'

/-- Take exactly n digits from the front. -/
def takeDigits : Nat → List Char → Option (List Char × List Char)
  | 0, l => some ([], l)
  | _ + 1, [] => none
  | n + 1, c :: cs =>
    if isDigitChar c then (takeDigits n cs).map (fun p => (c :: p.1, p.2)) else none

/-- Trailing word-boundary assertion after a match ending in a digit: the next
character, if any, must not be a word character. -/
def boundaryAfter : List Char → Bool
  | [] => true
  | c :: _ => !isWordChar c

/-- First-success choice, the ordered alternation of the pattern. -/
def orElseO (a b : Option (List Char × List Char)) : Option (List Char × List Char) :=
  match a with
  | some x => some x
  | none => b

/-- Final two-to-four digit group of the date pattern with one candidate
length, followed by the trailing word boundary. -/
def tryYearLen (pre l : List Char) (n : Nat) : Option (List Char × List Char) :=
  match takeDigits n l with
  | some (y, r) => if boundaryAfter r then some (pre ++ y, r) else none
  | none => none

/-- Final digit group of the date pattern: greedy, so four digits are tried
first, then three, then two, each candidate checked against the boundary. -/
def tryYear (pre l : List Char) : Option (List Char × List Char) :=
  orElseO (tryYearLen pre l 4) (orElseO (tryYearLen pre l 3) (tryYearLen pre l 2))

/-- Slash form of the date pattern after the second digit group: a separator
then the final group. -/
def tryAfterMonth (pre l : List Char) : Option (List Char × List Char) :=
  match l with
  | s2 :: l4 => if sepChar s2 then tryYear (pre ++ [s2]) l4 else none
  | [] => none

/-- Slash form after the first digit group: a separator then the second group
(two digits preferred over one) then the rest. -/
def tryAfterDay (d1 l : List Char) : Option (List Char × List Char) :=
  match l with
  | s1 :: l2 =>
    if sepChar s1 then
      orElseO
        (match takeDigits 2 l2 with
         | some (d2, l3) => tryAfterMonth (d1 ++ [s1] ++ d2) l3
         | none => none)
        (match takeDigits 1 l2 with
         | some (d2, l3) => tryAfterMonth (d1 ++ [s1] ++ d2) l3
         | none => none)
    else none
  | [] => none

/-- Slash form of the date pattern at the head of the list. -/
def tryDateSlash (l : List Char) : Option (List Char × List Char) :=
  orElseO
    (match takeDigits 2 l with
     | some (d1, l1) => tryAfterDay d1 l1
     | none => none)
    (match takeDigits 1 l with
     | some (d1, l1) => tryAfterDay d1 l1
     | none => none)

/-- The twelve month abbreviations, lower-cased. -/
def monthAbbrevs : List (List Char) :=
  [['j','a','n'], ['f','e','b'], ['m','a','r'], ['a','p','r'], ['m','a','y'], ['j','u','n'],
   ['j','u','l'], ['a','u','g'], ['s','e','p'], ['o','c','t'], ['n','o','v'], ['d','e','c']]

/-- Case-insensitive front strip against an already-lower-case pattern. -/
def dropStartCI : List Char → List Char → Option (List Char)
  | [], l => some l
  | _ :: _, [] => none
  | p :: ps, c :: cs => if asciiLower c = p then dropStartCI ps cs else none

/-- Month-abbreviation alternation, first (and only possible) alternative that
matches case-insensitively; returns the three matched input characters. -/
def tryMonthName (l : List Char) : Option (List Char × List Char) :=
  monthAbbrevs.foldl
    (fun acc m =>
      match acc with
      | some r => some r
      | none =>
        match dropStartCI m l with
        | some r => some (l.take 3, r)
        | none => none)
    none

/-- Month-name form of the date pattern with a fixed day-group length: digits,
whitespace, month abbreviation, optional letters, optional dot, whitespace, and
the final digit group with its boundary. -/
def tryDateNameDay (n : Nat) (l : List Char) : Option (List Char × List Char) :=
  match takeDigits n l with
  | some (d, l1) =>
    let (ws1, l2) := l1.span jsSpaceChar
    if ws1.isEmpty then none
    else
      match tryMonthName l2 with
      | some (mn, l3) =>
        let (letters, l4) := l3.span Char.isAlpha
        let (dot, l5) :=
          match l4 with
          | '.' :: r => ([('.' : Char)], r)
          | _ => ([], l4)
        let (ws2, l6) := l5.span jsSpaceChar
        if ws2.isEmpty then none
        else tryYear (d ++ ws1 ++ mn ++ letters ++ dot ++ ws2) l6
      | none => none
  | none => none

/-- Month-name form of the date pattern, two-digit day preferred. -/
def tryDateName (l : List Char) : Option (List Char × List Char) :=
  orElseO (tryDateNameDay 2 l) (tryDateNameDay 1 l)

/-- One attempt of the full date pattern at the head of the list: the slash
alternative first, then the month-name alternative. -/
def tryDateAt (l : List Char) : Option (List Char × List Char) :=
  orElseO (tryDateSlash l) (tryDateName l)

/-- Leftmost-match scan for the date pattern. Both alternatives begin with a
word boundary followed by a digit, so an attempt is only made at positions
whose preceding character is absent or not a word character. -/
def dateScan : Bool → List Char → Option (List Char)
  | _, [] => none
  | prevWord, c :: cs =>
    match (if prevWord then none else tryDateAt (c :: cs)) with
    | some (m, _) => some m
    | none => dateScan (isWordChar c) cs

/-- First match of the date pattern, the String.match of the source. -/
def firstDateMatch (l : List Char) : Option (List Char) :=
  dateScan false l

/-- Test of the date pattern, the RegExp.test used as the line pre-filter. -/
def dateTest (l : List Char) : Bool :=
  (firstDateMatch l).isSome

/-!
The transaction record: a mapping from the recognized field names to optional
string values (Page is the 1-based source page number). An absent field models
an absent JavaScript object property.
-/

/-- Transaction record with the recognized fields of the source. -/
structure Txn where
  Date : Option String := none
  Description : Option String := none
  Debit : Option String := none
  Credit : Option String := none
  Balance : Option String := none
  Amount : Option String := none
  Page : Option Nat := none
deriving DecidableEq

/-- Number of set fields, the Object.keys length of the record. -/
def keysCount (t : Txn) : Nat :=
  (if t.Date.isSome then 1 else 0) + (if t.Description.isSome then 1 else 0) +
    (if t.Debit.isSome then 1 else 0) + (if t.Credit.isSome then 1 else 0) +
    (if t.Balance.isSome then 1 else 0) + (if t.Amount.isSome then 1 else 0) +
    (if t.Page.isSome then 1 else 0)

/-- Working line after the date extraction step: the first date match, if any,
is removed via String.replace, which removes the first occurrence of the
matched text as a plain substring. -/
def lineAfterDate (l : List Char) : List Char :=
  match firstDateMatch l with
  | some m => replaceFirst l m
  | none => l

/-- Date field produced by the extractor. -/
def dateFieldOf (l : List Char) : Option String :=
  (firstDateMatch l).map (fun m => String.mk m)

/-- Amount matches of the working line (after date removal). -/
def amountsOf (l : List Char) : List (List Char) :=
  amountMatches (lineAfterDate l)

/-- Removal of every matched amount from the working line, one String.replace
per match, each removing the first occurrence of that matched text. -/
def removeAll (l : List Char) (ms : List (List Char)) : List Char :=
  ms.foldl (fun acc m => replaceFirst acc m) l

/-- Case-insensitive test for the substring of the debit classification on the
working line. -/
def debitLine (l1 : List Char) : Bool :=
  isSubstr ['d','e','b','i','t'] (lowerChars l1)

/-- Removal of the first minus sign, the String.replace of the debit branch. -/
def stripMinusFirst (s : List Char) : List Char :=
  replaceFirst s ['-']

/-- Field classification of one line: the last amount is the balance; with two
or more amounts the second-to-last is a debit when it contains a minus sign or
the working line contains the debit substring, otherwise a credit; the debit
value has its minus sign removed; the residue, trimmed, is the description. -/
def classifyTxn (l0 : List Char) : Txn :=
  let l1 := lineAfterDate l0
  let ams := amountsOf l0
  let descr := String.mk (trimChars (removeAll l1 ams))
  match ams.reverse with
  | [] => { Date := dateFieldOf l0, Description := some descr }
  | [balM] =>
    { Date := dateFieldOf l0, Balance := some (String.mk (trimChars balM)),
      Description := some descr }
  | balM :: amtM :: _ =>
    let amount := trimChars amtM
    if amount.contains '-' || debitLine l1 then
      { Date := dateFieldOf l0, Balance := some (String.mk (trimChars balM)),
        Debit := some (String.mk (stripMinusFirst amount)), Description := some descr }
    else
      { Date := dateFieldOf l0, Balance := some (String.mk (trimChars balM)),
        Credit := some (String.mk amount), Description := some descr }

/-- Single-line field extractor of the pattern matcher. -/
def extractTransactionFromLine (s : String) : Txn :=
  classifyTxn s.data

/-!
Date parsing for the sort: the source tries a day-month-year reading, then a
month-day-year reading of the same anchored regular expression, then a
year-month-day form, and finally the host Date constructor. A successfully
constructed ISO date string is valid exactly when it names a real calendar
date. Timestamps are modelled by the numeric key year * 10000 + month * 100 +
day, which is strictly monotone in calendar order, so every comparison of
getTime values has the same sign in the model.
-/

/-- Days in a month with the Gregorian leap rule. -/
def daysInMonth (y m : Nat) : Nat :=
  if m = 2 then (if (y % 4 = 0 && y % 100 ≠ 0) || y % 400 = 0 then 29 else 28)
  else if m = 4 || m = 6 || m = 9 || m = 11 then 30
  else 31

/-- Calendar validity of an ISO year-month-day date string. -/
def validYMD (y m d : Nat) : Bool :=
  1 ≤ m && m ≤ 12 && 1 ≤ d && d ≤ daysInMonth y m

/-- Order-isomorphic timestamp key of a calendar date. -/
def ymdKey (y m d : Nat) : Int :=
  ((y * 10000 + m * 100 + d : Nat) : Int)

/-- Key of the Date constructed from an ISO year-month-day string: some key
when the date is a real calendar date, none for an invalid Date. -/
def isoDateKey (y m d : Nat) : Option Int :=
  if validYMD y m d then some (ymdKey y m d) else none

/-- Numeric value of a digit group. -/
def digitsToNat (l : List Char) : Nat :=
  l.foldl (fun n c => n * 10 + (c.toNat - 48)) 0

/-- Anchored match of one-or-two digits, separator, one-or-two digits,
separator, exactly four digits. The digit groups are the maximal digit runs:
each group is delimited by a separator or the end anchor, so the greedy
quantifiers admit exactly one possible split. -/
def matchDMY (l : List Char) : Option (Nat × Nat × Nat) :=
  let (g1, r1) := l.span isDigitChar
  if g1.length = 0 || g1.length > 2 then none
  else
    match r1 with
    | s1 :: r2 =>
      if !sepChar s1 then none
      else
        let (g2, r3) := r2.span isDigitChar
        if g2.length = 0 || g2.length > 2 then none
        else
          match r3 with
          | s2 :: r4 =>
            if !sepChar s2 then none
            else
              let (g3, r5) := r4.span isDigitChar
              if g3.length = 4 && r5.isEmpty then
                some (digitsToNat g1, digitsToNat g2, digitsToNat g3)
              else none
          | [] => none
    | [] => none

/-- Anchored match of exactly four digits, separator, one-or-two digits,
separator, one-or-two digits. -/
def matchYMD (l : List Char) : Option (Nat × Nat × Nat) :=
  let (g1, r1) := l.span isDigitChar
  if g1.length ≠ 4 then none
  else
    match r1 with
    | s1 :: r2 =>
      if !sepChar s1 then none
      else
        let (g2, r3) := r2.span isDigitChar
        if g2.length = 0 || g2.length > 2 then none
        else
          match r3 with
          | s2 :: r4 =>
            if !sepChar s2 then none
            else
              let (g3, r5) := r4.span isDigitChar
              if (g3.length = 1 || g3.length = 2) && r5.isEmpty then
                some (digitsToNat g1, digitsToNat g2, digitsToNat g3)
              else none
          | [] => none
    | [] => none

/-- Anchored match of an ISO year-month-day string with dash separators. -/
def matchIsoDash (l : List Char) : Option (Nat × Nat × Nat) :=
  let (g1, r1) := l.span isDigitChar
  if g1.length ≠ 4 then none
  else
    match r1 with
    | '-' :: r2 =>
      let (g2, r3) := r2.span isDigitChar
      if g2.length ≠ 2 then none
      else
        match r3 with
        | '-' :: r4 =>
          let (g3, r5) := r4.span isDigitChar
          if g3.length = 2 && r5.isEmpty then
            some (digitsToNat g1, digitsToNat g2, digitsToNat g3)
          else none
        | _ => none
    | _ => none

/-- Partial model of the host Date constructor applied to an arbitrary string
(the last-resort parse of the source and the comparator of the fallback
branch). The host parser is implementation defined; this model accepts ISO
year-month-day strings and rejects everything else. It is faithful on every
string this development evaluates it on: ISO strings parse to the
corresponding date, and strings such as plain words or slash-dates whose two
digit-order readings are both invalid yield an invalid Date in the host too. -/
def jsNewDateKey (s : String) : Option Int :=
  match matchIsoDash s.data with
  | some (y, m, d) => isoDateKey y m d
  | none => none

/-- Multi-format date parser of the post-processor: day-month-year first, then
month-day-year on the same regular expression, then year-month-day, then the
host Date constructor; none when everything fails. -/
def parseDate (s : String) : Option Int :=
  if s.data.isEmpty then none
  else
    match matchDMY s.data with
    | some (a, b, y) =>
      match isoDateKey y b a with
      | some k => some k
      | none =>
        match isoDateKey y a b with
        | some k => some k
        | none => jsNewDateKey s
    | none =>
      match matchYMD s.data with
      | some (y, m, d) =>
        match isoDateKey y m d with
        | some k => some k
        | none => jsNewDateKey s
      | none => jsNewDateKey s

/-- Truthiness of an optional string field: absent and empty are falsy. -/
def jsTruthyStr : Option String → Bool
  | none => false
  | some s => !s.data.isEmpty

/-- Comparator of sortTransactionsByDate: zero when either Date is absent or
empty, zero when either fails every parse, otherwise the timestamp
difference. -/
def cmpTxn (a b : Txn) : Int :=
  if !jsTruthyStr a.Date || !jsTruthyStr b.Date then 0
  else
    match parseDate (a.Date.getD ""), parseDate (b.Date.getD "") with
    | some x, some y => x - y
    | _, _ => 0

/-- Sort key of a record: none exactly when the comparator treats the record
as unordered against everything. -/
def txnKey (t : Txn) : Option Int :=
  if jsTruthyStr t.Date then parseDate (t.Date.getD "") else none

/-- Sort key with a default, for stating orderedness of outputs. -/
def txnKeyVal (t : Txn) : Int :=
  (txnKey t).getD 0

/-- Stable insertion of one element: the element is placed before the first
element it does not compare strictly after. -/
def jsStableInsert (cmp : Txn → Txn → Int) (x : Txn) : List Txn → List Txn
  | [] => [x]
  | y :: ys => if cmp x y ≤ 0 then x :: y :: ys else y :: jsStableInsert cmp x ys

/-- Model of Array.prototype.sort as a stable comparison sort (insertion
sort). The language specification requires the sort to be stable and, for
consistent comparators, every stable comparison sort produces this order; for
inconsistent comparators (the date comparator answers equal against every
unparseable record, which is intransitive) the host order is implementation
defined and this model fixes one canonical stable behaviour. The order and
stability theorems below therefore restrict themselves to inputs on which the
comparator is consistent (every Date parseable, no Date parseable, or an
input already sorted under the comparator), where every conforming sort
agrees with this model; no ordering guarantee is claimed for mixed lists. -/
def jsStableSort (cmp : Txn → Txn → Int) : List Txn → List Txn
  | [] => []
  | x :: xs => jsStableInsert cmp x (jsStableSort cmp xs)

/-- Post-processor sort: stable sort under the date comparator. -/
def sortTransactionsByDate (l : List Txn) : List Txn :=
  jsStableSort cmpTxn l

/-- Comparator of the inline sort in the whole-document fallback branch: the
host Date constructor applied directly to both Date fields; an invalid date
gives a not-a-number difference, which the sort treats as equal. -/
def cmpTxnInline (a b : Txn) : Int :=
  if jsTruthyStr a.Date && jsTruthyStr b.Date then
    match jsNewDateKey (a.Date.getD ""), jsNewDateKey (b.Date.getD "") with
    | some x, some y => x - y
    | _, _ => 0
  else 0

/-!
Deduplication: a Map keyed by the concatenation of the Date, the first truthy
of Amount, Debit and Credit, and the first ten characters of the Description,
with dash separators. Only the first record with a given key is inserted and
the Map iterates its values in insertion order.
-/

/-- Deduplication key of a record. -/
def dedupKey (t : Txn) : String :=
  let dateStr := if jsTruthyStr t.Date then t.Date.getD "" else ""
  let amountStr :=
    if jsTruthyStr t.Amount then t.Amount.getD ""
    else if jsTruthyStr t.Debit then t.Debit.getD ""
    else if jsTruthyStr t.Credit then t.Credit.getD ""
    else ""
  let descStart :=
    if jsTruthyStr t.Description then String.mk ((t.Description.getD "").data.take 10) else ""
  dateStr ++ "-" ++ amountStr ++ "-" ++ descStart

/-- Duplicate removal of the post-processor: the Map is an association list in
insertion order, a key is inserted only when absent, and the values are read
back in insertion order. -/
def removeDuplicateTransactions (l : List Txn) : List Txn :=
  (l.foldl
    (fun m t => if m.any (fun p => p.1 = dedupKey t) then m else m ++ [(dedupKey t, t)])
    ([] : List (String × Txn))).map Prod.snd

/-- Stated from the claim, for comparison with the source function: keep each
record exactly when no earlier record produced the same key, carrying the set
of keys already seen. -/
def dedupSeen (seen : List String) : List Txn → List Txn
  | [] => []
  | t :: ts =>
    if dedupKey t ∈ seen then dedupSeen seen ts
    else t :: dedupSeen (dedupKey t :: seen) ts

/-!
Line parser. The source splits the page text on line breaks, trims, drops
blank lines and page-break markers, pre-filters on both patterns, and extracts
fields line by line; one try/catch encloses the whole loop, so the model takes
the per-line extraction step as a fallible oracle to make the behaviour under
a host exception expressible, and the concrete parser instantiates the oracle
with the (total) extractor.
-/

/-- Split on a character, keeping empty pieces, the JavaScript String.split
with a single-character separator. -/
def splitOnChar (sep : Char) : List Char → List (List Char)
  | [] => [[]]
  | c :: cs =>
    let rest := splitOnChar sep cs
    if c = sep then [] :: rest
    else
      match rest with
      | r :: rs => (c :: r) :: rs
      | [] => [[c]]

/-- Trimmed, nonempty lines of a page text. -/
def linesOf (text : String) : List (List Char) :=
  ((splitOnChar '\n' text.data).map trimChars).filter (fun l => !l.isEmpty)

/-- Page-break marker test of the line loop. -/
def pageBreakLine (l : List Char) : Bool :=
  isSubstr ['P','A','G','E',' ','B','R','E','A','K'] l

/-- Pre-filter of the line loop: not a page break, not blank after trimming,
and both patterns match. -/
def lineQualifies (l : List Char) : Bool :=
  !pageBreakLine l && !(trimChars l).isEmpty && dateTest l && amountTest l

/-- Success test of the fallible per-line step. -/
def exOk : Except Unit Txn → Bool
  | .ok _ => true
  | .error _ => false

/-- Line loop with the fallible per-line step, mirroring the try/catch
placement of the source: the catch encloses the whole loop, so the first
exception returns the empty list, discarding the records already collected
and skipping the remaining lines. -/
def lineLoop (f : String → Except Unit Txn) (pageNum : Nat) :
    List (List Char) → List Txn → List Txn
  | [], acc => acc
  | l :: ls, acc =>
    if lineQualifies l then
      match f (String.mk l) with
      | .error _ => []
      | .ok t =>
        if keysCount t > 0 then lineLoop f pageNum ls (acc ++ [{ t with Page := some pageNum }])
        else lineLoop f pageNum ls acc
    else lineLoop f pageNum ls acc

/-- Line parser with a fallible per-line extraction step. -/
def extractTableDataFromTextE (f : String → Except Unit Txn) (text : String) (pageNum : Nat) :
    List Txn :=
  lineLoop f pageNum (linesOf text) []

/-- Line parser of the source, with the total extractor as the per-line step. -/
def extractTableDataFromText (text : String) (pageNum : Nat) : List Txn :=
  extractTableDataFromTextE (fun l => Except.ok (extractTransactionFromLine l)) text pageNum

/-- Qualifying lines of a page text: the lines on which the per-line
extraction step runs. -/
def qualLines (text : String) : List (List Char) :=
  (linesOf text).filter lineQualifies

/-!
Text-layer backend: pages one to twenty are parsed one by one; when the
accumulated record count is zero the whole document, concatenated with the
page-break marker, is re-parsed as page one, sorted with the inline
comparator; when that also yields nothing the backend reports an error, and
otherwise the accumulated records are deduplicated and sorted.
-/

/-- Terminal outcome of the text-layer backend: the extracted records, or the
error message delivered to the caller. -/
inductive TextOutcome where
  | data (records : List Txn)
  | error (msg : String)
deriving DecidableEq

/-- Page-break marker appended after every page in the whole-document
concatenation. -/
def pageBreakMarker : String :=
  "\n\n--- PAGE BREAK ---\n\n"

/-- Per-page loop of the text-layer backend, pages numbered from one. -/
def pagesLoop : Nat → List String → List Txn
  | _, [] => []
  | i, p :: ps => extractTableDataFromText p i ++ pagesLoop (i + 1) ps

/-- Records accumulated over pages one to twenty. -/
def pageRecordsAccum (pages : List String) : List Txn :=
  pagesLoop 1 (pages.take 20)

/-- Whole-document concatenation: every page text followed by the page-break
marker. -/
def extractAllText (pages : List String) : String :=
  ((pages.take 20).map (fun t => t ++ pageBreakMarker)).foldl (fun a b => a ++ b) ""

/-- Text-layer backend on the page texts of a document. -/
def processTextBasedPdf (pages : List String) : TextOutcome :=
  if (pageRecordsAccum pages).length = 0 then
    if (extractTableDataFromText (extractAllText pages) 1).length > 0 then
      TextOutcome.data
        (jsStableSort cmpTxnInline (extractTableDataFromText (extractAllText pages) 1))
    else TextOutcome.error "Failed to extract text from the PDF. Please try using OCR mode."
  else TextOutcome.data (sortTransactionsByDate (removeDuplicateTransactions (pageRecordsAccum pages)))

/-!
OCR backend control flow. The observable behaviour relevant to cancellation is
the sequence of page operations and caller callbacks, so the embedding records
an event trace. Time is counted in completed long-running operations
(rasterizations and recognitions); the cancellation flag reads true at every
check once at least cancelAt such operations have completed, which models a
cancellation signalled between the operation numbered cancelAt and the next
one. The rasterization loop checks the flag at the top of every iteration; the
recognition loop of processImagesWithOcr contains no flag check and only the
progress callback it invokes checks the flag; the phases are separated and
followed by further flag checks.
-/

/-- Observable events of one OCR invocation. -/
inductive OcrEv where
  | raster (page : Nat)
  | recognize (page : Nat)
  | progress
  | dataExtracted
deriving DecidableEq

/-- Rasterization loop: at each page the flag is checked first; the body emits
a progress update, rasterizes the page (one tick), and emits another progress
update. Returns the events and whether the loop aborted on the flag. -/
def rasterLoop (cancelAt : Nat) : Nat → Nat → List OcrEv × Bool
  | _, 0 => ([], false)
  | t, rem + 1 =>
    if cancelAt ≤ t then ([], true)
    else
      let (evs, ab) := rasterLoop cancelAt (t + 1) rem
      (OcrEv.progress :: OcrEv.raster (t + 1) :: OcrEv.progress :: evs, ab)

/-- Recognition loop of processImagesWithOcr: every image is recognized (one
tick) with no cancellation check; the progress callback invoked after each
recognition returns without emitting when the flag reads true. -/
def recogLoop (cancelAt : Nat) : Nat → Nat → Nat → List OcrEv
  | _, _, 0 => []
  | t, i, rem + 1 =>
    let pe : List OcrEv := if cancelAt ≤ t + 1 then [] else [OcrEv.progress]
    OcrEv.recognize i :: (pe ++ recogLoop cancelAt (t + 1) (i + 1) rem)

/-- Event trace of the scanned-document path: an opening progress update, the
rasterization loop over at most ten pages, a flag check, a progress update,
the recognition loop, a flag check, and when still live the per-page data
extraction progress updates, the final progress updates, and the result
callback. -/
def processScannedPdfEvents (cancelAt numPages : Nat) : List OcrEv :=
  let n := min numPages 10
  let (evs1, ab) := rasterLoop cancelAt 0 n
  let evs1 := OcrEv.progress :: evs1
  if ab then evs1
  else if cancelAt ≤ n then evs1
  else
    let evs2 := evs1 ++ OcrEv.progress :: recogLoop cancelAt n 1 n
    if cancelAt ≤ n + n then evs2
    else
      evs2 ++ OcrEv.progress :: ((List.range n).map (fun _ => OcrEv.progress) ++
        [OcrEv.progress, OcrEv.dataExtracted, OcrEv.progress])

/-!
Timeout timers. A one-shot timer armed with delay d has a deadline; a reset at
time t re-arms it to t + d provided the deadline has not already passed, and
the timer fires when its current deadline elapses before the next reset or
before the invocation ends. The outer caller-owned timer (three minutes) is
re-armed by every delivered progress update; the inner pipeline-owned timer
(two minutes) is armed once before extraction and is never re-armed, so its
reset list is empty by construction.
-/

/-- One-shot resettable timer: fires when a deadline elapses before the next
reset, or before the end of the invocation. -/
def oneShotTimer (d : Nat) : Nat → List Nat → Nat → Bool
  | deadline, [], tEnd => decide (deadline < tEnd)
  | deadline, t :: ts, tEnd =>
    if deadline < t then true else oneShotTimer d (t + d) ts tEnd

/-- Outer three-minute timer of the caller: armed at invocation start and
re-armed at every delivered progress update. -/
def outerTimerFires (resets : List Nat) (tEnd : Nat) : Bool :=
  oneShotTimer 180000 180000 resets tEnd

/-- Inner two-minute timer of the pipeline: armed once before extraction and
cleared only when the invocation ends; no code path re-arms it, so it takes no
list of progress times at all. -/
def innerTimerFires (tEnd : Nat) : Bool :=
  oneShotTimer 120000 120000 [] tEnd

/-- Progress-update throttle of the caller: a call is delivered when at least
one hundred milliseconds passed since the last delivered call or the progress
is one hundred percent; the delivered calls are the timer resets. -/
def deliveredTimes (calls : List (Nat × Nat)) : List Nat :=
  (calls.foldl
    (fun st c =>
      if st.1 + 100 < c.1 || c.2 = 100 then (c.1, st.2 ++ [c.1]) else st)
    ((0 : Nat), ([] : List Nat))).2

/-!
Manual-entry CSV parser (the handleSubmit of the sample-data input): on input
that is not JSON (the JSON.parse attempt throws on such input and control
falls through), the first nonblank line gives the headers, every further line
with the same number of comma-separated fields becomes one row object mapping
each header to the field in its column, and rows are delivered only when at
least one was parsed. A row object is an association list in insertion order;
assigning an existing key overwrites in place.
-/

/-- Object property assignment: overwrite in place when present, append when
absent. -/
def objSet (row : List (String × String)) (k v : String) : List (String × String) :=
  if row.any (fun p => p.1 = k) then
    row.map (fun p => if p.1 = k then (k, v) else p)
  else row ++ [(k, v)]

/-- Row object built from the headers and the field values of one line. -/
def rowOf (headers values : List String) : List (String × String) :=
  (headers.zip values).foldl (fun r p => objSet r p.1 p.2) []

/-- CSV branch of the manual-entry submit handler: none models the error
paths (fewer than two nonblank lines, or no parsable row). -/
def parseCsvRows (input : String) : Option (List (List (String × String))) :=
  let lines := (splitOnChar '\n' input.data).filter (fun l => !(trimChars l).isEmpty)
  if lines.length < 2 then none
  else
    let headers := ((splitOnChar ',' lines.headI).map trimChars).map String.mk
    let data :=
      (lines.drop 1).foldl
        (fun acc ln =>
          let values := ((splitOnChar ',' ln).map trimChars).map String.mk
          if values.length ≠ headers.length then acc
          else acc ++ [rowOf headers values])
        ([] : List (List (String × String)))
    if data.isEmpty then none else some data

/-!
Lemmas about the comparator, the stable sort and the deduplication map.
-/

theorem cmpTxn_of_keys (a b : Txn) (x y : Int) (ha : txnKey a = some x)
    (hb : txnKey b = some y) : cmpTxn a b = x - y := by
  unfold txnKey at ha hb
  by_cases h1 : jsTruthyStr a.Date
  · by_cases h2 : jsTruthyStr b.Date
    · rw [if_pos h1] at ha
      rw [if_pos h2] at hb
      unfold cmpTxn
      simp [h1, h2, ha, hb]
    · rw [if_neg h2] at hb
      exact absurd hb (by simp)
  · rw [if_neg h1] at ha
    exact absurd ha (by simp)

theorem cmpTxn_of_none_left (a b : Txn) (ha : txnKey a = none) : cmpTxn a b = 0 := by
  unfold txnKey at ha
  by_cases h1 : jsTruthyStr a.Date
  · rw [if_pos h1] at ha
    unfold cmpTxn
    by_cases h2 : jsTruthyStr b.Date
    · simp [h1, h2, ha]
    · simp [h2]
  · unfold cmpTxn
    simp [h1]

theorem cmpTxn_of_none_right (a b : Txn) (hb : txnKey b = none) : cmpTxn a b = 0 := by
  unfold txnKey at hb
  by_cases h2 : jsTruthyStr b.Date
  · rw [if_pos h2] at hb
    unfold cmpTxn
    by_cases h1 : jsTruthyStr a.Date
    · cases hpa : parseDate (a.Date.getD "") <;> simp [h1, h2, hb, hpa]
    · simp [h1]
  · unfold cmpTxn
    simp [h2]

theorem cmpTxn_self_eq_zero (a : Txn) : cmpTxn a a = 0 := by
  cases ha : txnKey a with
  | none => exact cmpTxn_of_none_left a a ha
  | some x => rw [cmpTxn_of_keys a a x x ha ha]; omega

theorem cmpTxn_le_iff (a b : Txn) (x y : Int) (ha : txnKey a = some x)
    (hb : txnKey b = some y) : cmpTxn a b ≤ 0 ↔ txnKeyVal a ≤ txnKeyVal b := by
  rw [cmpTxn_of_keys a b x y ha hb]
  unfold txnKeyVal
  rw [ha, hb]
  simp only [Option.getD_some]
  omega

theorem mem_jsStableInsert (cmp : Txn → Txn → Int) (x z : Txn) :
    ∀ s : List Txn, z ∈ jsStableInsert cmp x s ↔ z = x ∨ z ∈ s := by
  intro s
  induction s with
  | nil => simp [jsStableInsert]
  | cons y ys ih =>
    by_cases h : cmp x y ≤ 0
    · simp [jsStableInsert, h]
    · simp [jsStableInsert, h, ih]
      tauto

theorem mem_jsStableSort (cmp : Txn → Txn → Int) (z : Txn) :
    ∀ l : List Txn, z ∈ jsStableSort cmp l ↔ z ∈ l := by
  intro l
  induction l with
  | nil => simp [jsStableSort]
  | cons x xs ih =>
    simp [jsStableSort, mem_jsStableInsert, ih]

theorem pairwise_jsStableInsert (x : Txn) :
    ∀ s : List Txn, (txnKey x).isSome → (∀ t ∈ s, (txnKey t).isSome) →
      s.Pairwise (fun a b => txnKeyVal a ≤ txnKeyVal b) →
      (jsStableInsert cmpTxn x s).Pairwise (fun a b => txnKeyVal a ≤ txnKeyVal b) := by
  intro s
  induction s with
  | nil =>
    intro _ _ _
    simp [jsStableInsert]
  | cons y ys ih =>
    intro hx hall hp
    obtain ⟨kx, hkx⟩ := Option.isSome_iff_exists.mp hx
    obtain ⟨ky, hky⟩ := Option.isSome_iff_exists.mp (hall y (by simp))
    rw [List.pairwise_cons] at hp
    by_cases h : cmpTxn x y ≤ 0
    · rw [jsStableInsert, if_pos h]
      have hxy : txnKeyVal x ≤ txnKeyVal y := (cmpTxn_le_iff x y kx ky hkx hky).mp h
      refine List.Pairwise.cons ?_ (List.pairwise_cons.mpr hp)
      intro z hz
      rcases List.mem_cons.mp hz with hz | hz
      · exact hz ▸ hxy
      · exact le_trans hxy (hp.1 z hz)
    · rw [jsStableInsert, if_neg h]
      have hyx : txnKeyVal y ≤ txnKeyVal x := by
        rw [cmpTxn_of_keys x y kx ky hkx hky] at h
        refine (cmpTxn_le_iff y x ky kx hky hkx).mp ?_
        rw [cmpTxn_of_keys y x ky kx hky hkx]
        omega
      refine List.Pairwise.cons ?_ (ih hx (fun t ht => hall t (by simp [ht])) hp.2)
      intro z hz
      rcases (mem_jsStableInsert cmpTxn x z ys).mp hz with hz | hz
      · exact hz ▸ hyx
      · exact hp.1 z hz

theorem pairwise_jsStableSort (l : List Txn) (h : ∀ t ∈ l, (txnKey t).isSome) :
    (sortTransactionsByDate l).Pairwise (fun a b => txnKeyVal a ≤ txnKeyVal b) := by
  unfold sortTransactionsByDate
  induction l with
  | nil => simp [jsStableSort]
  | cons x xs ih =>
    rw [jsStableSort]
    refine pairwise_jsStableInsert x (jsStableSort cmpTxn xs) (h x (by simp)) ?_ ?_
    · intro t ht
      exact h t (by simp [(mem_jsStableSort cmpTxn t xs).mp ht])
    · exact ih (fun t ht => h t (by simp [ht]))

theorem jsStableSort_chain_id (cmp : Txn → Txn → Int) :
    ∀ l : List Txn, List.Chain' (fun a b => cmp a b ≤ 0) l → jsStableSort cmp l = l := by
  intro l
  induction l with
  | nil => intro _; rfl
  | cons x xs ih =>
    intro hc
    rw [jsStableSort, ih hc.tail]
    cases xs with
    | nil => rfl
    | cons y ys =>
      have hxy : cmp x y ≤ 0 := (List.chain'_cons.mp hc).1
      rw [jsStableInsert, if_pos hxy]

theorem dedupSeen_congr (l : List Txn) :
    ∀ s1 s2 : List String, (∀ k, k ∈ s1 ↔ k ∈ s2) → dedupSeen s1 l = dedupSeen s2 l := by
  induction l with
  | nil => intro _ _ _; rfl
  | cons t ts ih =>
    intro s1 s2 hmem
    by_cases h : dedupKey t ∈ s1
    · rw [dedupSeen, if_pos h, dedupSeen, if_pos ((hmem _).mp h), ih s1 s2 hmem]
    · rw [dedupSeen, if_neg h, dedupSeen, if_neg (fun hc => h ((hmem _).mpr hc))]
      rw [ih (dedupKey t :: s1) (dedupKey t :: s2) (by intro k; simp [hmem k])]

theorem removeDuplicateTransactions_foldl (l : List Txn) :
    ∀ m : List (String × Txn),
      ((l.foldl
          (fun m t => if m.any (fun p => p.1 = dedupKey t) then m else m ++ [(dedupKey t, t)])
          m).map Prod.snd) =
        m.map Prod.snd ++ dedupSeen (m.map Prod.fst) l := by
  induction l with
  | nil => intro m; simp [dedupSeen]
  | cons t ts ih =>
    intro m
    by_cases h : m.any (fun p => p.1 = dedupKey t)
    · have hmem : dedupKey t ∈ m.map Prod.fst := by
        rcases List.any_eq_true.mp h with ⟨p, hp, he⟩
        exact List.mem_map.mpr ⟨p, hp, of_decide_eq_true he⟩
      rw [List.foldl_cons, if_pos h, ih m, dedupSeen, if_pos hmem]
    · have hmem : dedupKey t ∉ m.map Prod.fst := by
        intro hc
        rcases List.mem_map.mp hc with ⟨p, hp, he⟩
        exact h (List.any_eq_true.mpr ⟨p, hp, decide_eq_true he⟩)
      rw [List.foldl_cons, if_neg h, ih (m ++ [(dedupKey t, t)]), dedupSeen, if_neg hmem]
      simp only [List.map_append, List.map_cons, List.map_nil]
      rw [List.append_assoc]
      simp only [List.singleton_append]
      rw [dedupSeen_congr ts (m.map Prod.fst ++ [dedupKey t]) (dedupKey t :: m.map Prod.fst)
        (by intro k; simp; tauto)]

theorem removeDuplicateTransactions_eq_dedupSeen (l : List Txn) :
    removeDuplicateTransactions l = dedupSeen [] l := by
  unfold removeDuplicateTransactions
  simpa using removeDuplicateTransactions_foldl l []

theorem dedupSeen_skip (u : Txn) (ys : List Txn) :
    ∀ (xs : List Txn) (seen : List String), dedupKey u ∈ seen →
      dedupSeen seen (xs ++ u :: ys) = dedupSeen seen (xs ++ ys) := by
  intro xs
  induction xs with
  | nil =>
    intro seen hm
    simp only [List.nil_append]
    rw [dedupSeen, if_pos hm]
  | cons x xs ih =>
    intro seen hm
    by_cases h : dedupKey x ∈ seen
    · simp only [List.cons_append]
      rw [dedupSeen, if_pos h, dedupSeen, if_pos h, ih seen hm]
    · simp only [List.cons_append]
      rw [dedupSeen, if_neg h, dedupSeen, if_neg h, ih (dedupKey x :: seen) (by simp [hm])]

theorem dedupSeen_id (l : List Txn) :
    ∀ seen : List String, (∀ t ∈ l, dedupKey t ∉ seen) → (l.map dedupKey).Nodup →
      dedupSeen seen l = l := by
  induction l with
  | nil => intro _ _ _; rfl
  | cons t ts ih =>
    intro seen hns hnd
    rw [dedupSeen, if_neg (hns t (by simp))]
    rw [List.map_cons, List.nodup_cons] at hnd
    rw [ih (dedupKey t :: seen) ?_ hnd.2]
    intro u hu
    simp only [List.mem_cons]
    push_neg
    constructor
    · intro he
      exact hnd.1 (he ▸ List.mem_map.mpr ⟨u, hu, rfl⟩)
    · exact hns u (by simp [hu])

/-!
Lemmas about the line loop, the OCR loops and the timers.
-/

theorem lineLoop_fail (f : String → Except Unit Txn) (p : Nat) :
    ∀ (ls : List (List Char)) (acc : List Txn),
      (∃ l ∈ ls, lineQualifies l = true ∧ exOk (f (String.mk l)) = false) →
      lineLoop f p ls acc = [] := by
  intro ls
  induction ls with
  | nil =>
    intro acc h
    rcases h with ⟨l, hl, _⟩
    cases hl
  | cons l ls ih =>
    intro acc h
    rw [lineLoop]
    by_cases hq : lineQualifies l
    · rw [if_pos hq]
      cases hf : f (String.mk l) with
      | error e => rfl
      | ok t =>
        have hrest : ∃ l' ∈ ls, lineQualifies l' = true ∧ exOk (f (String.mk l')) = false := by
          rcases h with ⟨l', hl', hq', hfail⟩
          rcases List.mem_cons.mp hl' with he | hl''
          · subst he
            rw [hf] at hfail
            cases hfail
          · exact ⟨l', hl'', hq', hfail⟩
        dsimp only
        by_cases hk : keysCount t > 0
        · rw [if_pos hk]
          exact ih _ hrest
        · rw [if_neg hk]
          exact ih _ hrest
    · rw [if_neg hq]
      apply ih
      rcases h with ⟨l', hl', hq', hfail⟩
      rcases List.mem_cons.mp hl' with he | hl''
      · subst he
        exact absurd hq' (by simpa using hq)
      · exact ⟨l', hl'', hq', hfail⟩

theorem rasterLoop_abort (cancelAt : Nat) :
    ∀ rem t : Nat, t ≤ cancelAt → cancelAt < t + rem →
      rasterLoop cancelAt t rem =
        ((List.range' t (cancelAt - t)).flatMap
          (fun k => [OcrEv.progress, OcrEv.raster (k + 1), OcrEv.progress]), true) := by
  intro rem
  induction rem with
  | zero =>
    intro t h1 h2
    omega
  | succ r ih =>
    intro t h1 h2
    by_cases h : cancelAt ≤ t
    · have he : t = cancelAt := le_antisymm h1 h
      subst he
      rw [rasterLoop, if_pos h]
      simp
    · rw [rasterLoop, if_neg h]
      rw [ih (t + 1) (by omega) (by omega)]
      have hs : cancelAt - t = (cancelAt - (t + 1)) + 1 := by omega
      rw [hs, List.range'_succ]
      simp

theorem rasterLoop_complete (cancelAt : Nat) :
    ∀ rem t : Nat, t + rem ≤ cancelAt →
      rasterLoop cancelAt t rem =
        ((List.range' t rem).flatMap
          (fun k => [OcrEv.progress, OcrEv.raster (k + 1), OcrEv.progress]), false) := by
  intro rem
  induction rem with
  | zero =>
    intro t _
    simp [rasterLoop]
  | succ r ih =>
    intro t h
    rw [rasterLoop, if_neg (by omega)]
    rw [ih (t + 1) (by omega), List.range'_succ]
    simp

theorem recogLoop_mem (cancelAt : Nat) :
    ∀ rem t i k : Nat, k < rem → OcrEv.recognize (i + k) ∈ recogLoop cancelAt t i rem := by
  intro rem
  induction rem with
  | zero =>
    intro t i k h
    omega
  | succ r ih =>
    intro t i k hk
    rw [recogLoop]
    cases k with
    | zero => simp
    | succ j =>
      have he : i + (j + 1) = (i + 1) + j := by omega
      rw [he]
      apply List.mem_cons_of_mem
      apply List.mem_append_right
      exact ih (t + 1) (i + 1) j (by omega)

theorem recogLoop_no_dataExtracted (cancelAt : Nat) :
    ∀ rem t i : Nat, OcrEv.dataExtracted ∉ recogLoop cancelAt t i rem := by
  intro rem
  induction rem with
  | zero =>
    intro t i
    simp [recogLoop]
  | succ r ih =>
    intro t i
    rw [recogLoop]
    intro hmem
    rcases List.mem_cons.mp hmem with he | hmem
    · cases he
    · rcases List.mem_append.mp hmem with he | hmem
      · by_cases hc : cancelAt ≤ t + 1
        · rw [if_pos hc] at he
          cases he
        · rw [if_neg hc] at he
          rcases List.mem_singleton.mp he with he
          cases he
      · exact ih (t + 1) (i + 1) hmem

theorem flatMap_raster_no_dataExtracted (l : List Nat) :
    OcrEv.dataExtracted ∉
      l.flatMap (fun k => [OcrEv.progress, OcrEv.raster (k + 1), OcrEv.progress]) := by
  intro hmem
  rcases List.mem_flatMap.mp hmem with ⟨k, _, hk⟩
  simp at hk

theorem flatMap_raster_no_recognize (l : List Nat) (i : Nat) :
    OcrEv.recognize i ∉
      l.flatMap (fun k => [OcrEv.progress, OcrEv.raster (k + 1), OcrEv.progress]) := by
  intro hmem
  rcases List.mem_flatMap.mp hmem with ⟨k, _, hk⟩
  simp at hk

/-- Gap check for an invocation that keeps making progress: starting from the
previous event time, every reset comes within d of the previous one and the
end comes within d of the last reset. -/
def gapsWithinFrom (d : Nat) : Nat → List Nat → Nat → Bool
  | prev, [], tEnd => tEnd ≤ prev + d
  | prev, t :: ts, tEnd => t ≤ prev + d && gapsWithinFrom d t ts tEnd

/-- Gap check from the arming of the timer at time zero. -/
def gapsWithin (d : Nat) (ts : List Nat) (tEnd : Nat) : Bool :=
  gapsWithinFrom d 0 ts tEnd

theorem oneShotTimer_no_fire (d : Nat) :
    ∀ (ts : List Nat) (prev tEnd : Nat),
      gapsWithinFrom d prev ts tEnd = true →
      oneShotTimer d (prev + d) ts tEnd = false := by
  intro ts
  induction ts with
  | nil =>
    intro prev tEnd hg
    rw [gapsWithinFrom, decide_eq_true_eq] at hg
    rw [oneShotTimer]
    simp only [decide_eq_false_iff_not]
    omega
  | cons t ts ih =>
    intro prev tEnd hg
    rw [gapsWithinFrom, Bool.and_eq_true] at hg
    have h1 : t ≤ prev + d := by
      have := hg.1
      simpa using this
    rw [oneShotTimer, if_neg (by omega)]
    exact ih t tEnd hg.2

/-!
Claim theorems.
-/

/-- C1: for the single text line of the scenario, the single-line field
extractor produces exactly the record with Date 15/04/2024, Debit 500.00,
Balance 86040.65 and Description ACH DEBIT:TXV/G4951885: the first date match
becomes the Date and is removed, the last amount match becomes the Balance,
and the second-to-last amount is classified Debit because the line contains
the case-insensitive substring of the word debit. -/
theorem c1_scenario_line_extraction :
    extractTransactionFromLine "15/04/2024 ACH DEBIT:TXV/G4951885 500.00 86040.65" =
      { Date := some "15/04/2024", Debit := some "500.00", Balance := some "86040.65",
        Description := some "ACH DEBIT:TXV/G4951885" } := by
  decide

/-- C2 counterexample: a record whose Date parses to the fifteenth of April
2024 placed before a record with an unparseable Date and a record whose Date
parses to the fourteenth of April 2024 is left in place by the stable sort,
because the comparator returns equal against the unparseable middle record;
the two parseable records therefore appear in strictly decreasing calendar
order in the output, refuting the claim that the sort is non-decreasing over
records whose Date parses for every input list. -/
theorem c2_sort_counterexample :
    sortTransactionsByDate
        [{ Date := some "15/04/2024" }, { Date := some "notadate" },
          { Date := some "14/04/2024" }] =
      [{ Date := some "15/04/2024" }, { Date := some "notadate" },
        { Date := some "14/04/2024" }] ∧
    (txnKey { Date := some "15/04/2024" }).isSome = true ∧
    (txnKey { Date := some "14/04/2024" }).isSome = true ∧
    (txnKey { Date := some "notadate" }) = none ∧
    txnKeyVal { Date := some ("14/04/2024" : String) } <
      txnKeyVal { Date := some ("15/04/2024" : String) } := by
  decide

/-- C2 (amended): when every record of the input has a parseable Date the
output of the sort is non-decreasing by calendar date (the comparator is then
a total preorder, so this is forced on every stable comparison sort); for
every pair of records in which either Date fails all parses the comparator
returns equal in both directions; and a list in which no record's Date parses
is returned unchanged (there the comparator is the constant equal, again a
consistent comparator, so every sort must keep the input order). On lists
mixing parseable and unparseable Dates the comparator is intransitive, the
host sort order is implementation defined, and no relative-order guarantee is
made for the unparseable records. -/
theorem c2_sort_amended :
    (∀ l : List Txn, (∀ t ∈ l, (txnKey t).isSome) →
        (sortTransactionsByDate l).Pairwise (fun a b => txnKeyVal a ≤ txnKeyVal b)) ∧
    (∀ a b : Txn, (txnKey a = none ∨ txnKey b = none) → cmpTxn a b = 0 ∧ cmpTxn b a = 0) ∧
    (∀ l : List Txn, (∀ t ∈ l, txnKey t = none) → sortTransactionsByDate l = l) := by
  refine ⟨pairwise_jsStableSort, ?_, ?_⟩
  · intro a b h
    rcases h with h | h
    · exact ⟨cmpTxn_of_none_left a b h, cmpTxn_of_none_right b a h⟩
    · exact ⟨cmpTxn_of_none_right a b h, cmpTxn_of_none_left b a h⟩
  · intro l h
    unfold sortTransactionsByDate
    induction l with
    | nil => rfl
    | cons x xs ih =>
      rw [jsStableSort, ih (fun t ht => h t (by simp [ht]))]
      cases xs with
      | nil => rfl
      | cons y ys =>
        have h0 : cmpTxn x y = 0 := cmpTxn_of_none_left x y (h x (by simp))
        rw [jsStableInsert, if_pos (by omega)]

/-- C2 witness: the amended theorem applied to a two-record all-parseable
list, to a concrete pair with an unparseable Date, and to a two-record list in
which no Date parses. -/
theorem c2_sort_amended_witness :
    (sortTransactionsByDate [{ Date := some "14/04/2024" }, { Date := some "15/04/2024" }]).Pairwise
        (fun a b => txnKeyVal a ≤ txnKeyVal b) ∧
    (cmpTxn { Date := some "notadate" } { Date := some "15/04/2024" } = 0 ∧
      cmpTxn { Date := some "15/04/2024" } { Date := some "notadate" } = 0) ∧
    sortTransactionsByDate [{ Date := some "notadate" }, { Date := some "alsonotadate" }] =
      [{ Date := some "notadate" }, { Date := some "alsonotadate" }] :=
  ⟨c2_sort_amended.1 [{ Date := some "14/04/2024" }, { Date := some "15/04/2024" }] (by decide),
    c2_sort_amended.2.1 { Date := some "notadate" } { Date := some "15/04/2024" }
      (Or.inl (by decide)),
    c2_sort_amended.2.2 [{ Date := some "notadate" }, { Date := some "alsonotadate" }]
      (by decide)⟩

/-- C3: deduplication keeps exactly the first record observed, in input order,
for each key built from the Date, the first non-empty of Amount, Debit and
Credit, and the first ten characters of the Description: the output equals the
seen-set characterization that keeps a record exactly when no earlier record
produced the same key, and dropping a later record whose key equals that of an
earlier record leaves the output unchanged. -/
theorem c3_dedup_first_occurrence :
    (∀ l : List Txn, removeDuplicateTransactions l = dedupSeen [] l) ∧
    (∀ (l1 l2 l3 : List Txn) (t u : Txn), dedupKey u = dedupKey t →
        removeDuplicateTransactions (l1 ++ t :: (l2 ++ u :: l3)) =
          removeDuplicateTransactions (l1 ++ t :: (l2 ++ l3))) := by
  constructor
  · exact removeDuplicateTransactions_eq_dedupSeen
  · intro l1 l2 l3 t u hk
    rw [removeDuplicateTransactions_eq_dedupSeen, removeDuplicateTransactions_eq_dedupSeen]
    have main : ∀ (xs : List Txn) (seen : List String),
        dedupSeen seen (xs ++ t :: (l2 ++ u :: l3)) = dedupSeen seen (xs ++ t :: (l2 ++ l3)) := by
      intro xs
      induction xs with
      | nil =>
        intro seen
        simp only [List.nil_append]
        by_cases h : dedupKey t ∈ seen
        · rw [dedupSeen, if_pos h, dedupSeen, if_pos h]
          exact dedupSeen_skip u l3 l2 seen (by rw [hk]; exact h)
        · rw [dedupSeen, if_neg h, dedupSeen, if_neg h]
          rw [dedupSeen_skip u l3 l2 (dedupKey t :: seen) (by simp [hk])]
      | cons x xs ih =>
        intro seen
        simp only [List.cons_append]
        by_cases h : dedupKey x ∈ seen
        · rw [dedupSeen, if_pos h, dedupSeen, if_pos h, ih seen]
        · rw [dedupSeen, if_neg h, dedupSeen, if_neg h, ih (dedupKey x :: seen)]
    exact main l1 []

/-- C3 witness: two records identical on the key components collapse to one,
keeping the first occurrence, via the second part of the theorem, and the
first part evaluated on that concrete list. -/
theorem c3_dedup_first_occurrence_witness :
    (dedupKey { Date := some "14/04/2024", Credit := some "50000.00", Description := some "CARD PYMT" } =
      dedupKey { Date := some "14/04/2024", Credit := some "50000.00", Description := some "CARD PYMT" }) ∧
    removeDuplicateTransactions
        [{ Date := some "14/04/2024", Credit := some "50000.00", Description := some "CARD PYMT" },
          { Date := some "14/04/2024", Credit := some "50000.00", Description := some "CARD PYMT" }] =
      removeDuplicateTransactions
        [{ Date := some "14/04/2024", Credit := some "50000.00", Description := some "CARD PYMT" }] :=
  ⟨rfl,
    c3_dedup_first_occurrence.2 [] [] []
      { Date := some "14/04/2024", Credit := some "50000.00", Description := some "CARD PYMT" }
      { Date := some "14/04/2024", Credit := some "50000.00", Description := some "CARD PYMT" }
      rfl⟩

/-- C4: on a list whose deduplication keys are pairwise distinct and whose
adjacent records already compare non-positively under the date comparator,
the post-processor (deduplicate then sort) returns its input unchanged. -/
theorem c4_postprocessor_noop (l : List Txn)
    (hkeys : (l.map dedupKey).Nodup)
    (hsorted : List.Chain' (fun a b => cmpTxn a b ≤ 0) l) :
    sortTransactionsByDate (removeDuplicateTransactions l) = l := by
  rw [removeDuplicateTransactions_eq_dedupSeen, dedupSeen_id l [] (by simp) hkeys]
  unfold sortTransactionsByDate
  exact jsStableSort_chain_id cmpTxn l hsorted

/-- C4 witness: the theorem applied to a concrete already-unique,
already-sorted two-record list. -/
theorem c4_postprocessor_noop_witness :
    sortTransactionsByDate
        (removeDuplicateTransactions
          [{ Date := some "14/04/2024", Credit := some "50000.00" },
            { Date := some "15/04/2024", Debit := some "500.00" }]) =
      [{ Date := some "14/04/2024", Credit := some "50000.00" },
        { Date := some "15/04/2024", Debit := some "500.00" }] :=
  c4_postprocessor_noop
    [{ Date := some "14/04/2024", Credit := some "50000.00" },
      { Date := some "15/04/2024", Debit := some "500.00" }]
    (by decide)
    (by
      rw [List.chain'_cons]
      exact ⟨by decide, List.chain'_singleton _⟩)

/-- C5 counterexample: with a per-line step that throws on the second
qualifying line of a two-line page, the parser returns the empty list, although
the same step applied to the first line alone yields its record; an internal
exception on one line therefore aborts the whole page instead of skipping only
that line, refuting the claim that parsing of the remaining lines continues and
records from other lines are still emitted. -/
theorem c5_line_parser_counterexample :
    extractTableDataFromTextE
        (fun l => if l = "16/04/2024 BAD 1.00 2.00" then Except.error ()
          else Except.ok (extractTransactionFromLine l))
        "15/04/2024 ACH DEBIT:TXV/G4951885 500.00 86040.65\n16/04/2024 BAD 1.00 2.00" 1 = [] ∧
    extractTableDataFromTextE
        (fun l => if l = "16/04/2024 BAD 1.00 2.00" then Except.error ()
          else Except.ok (extractTransactionFromLine l))
        "15/04/2024 ACH DEBIT:TXV/G4951885 500.00 86040.65" 1 =
      [{ Date := some "15/04/2024", Debit := some "500.00", Balance := some "86040.65",
         Description := some "ACH DEBIT:TXV/G4951885", Page := some 1 }] := by
  decide

/-- C5 (amended): the line parser itself never raises (the catch-all returns a
list on every input), but when an internal exception occurs while processing
any qualifying line of a page, the whole page yields zero records: the
remaining lines are not parsed and the records already collected from earlier
lines of that page are discarded. -/
theorem c5_line_parser_amended :
    ∀ (f : String → Except Unit Txn) (text : String) (pageNum : Nat),
      (∃ l ∈ qualLines text, exOk (f (String.mk l)) = false) →
      extractTableDataFromTextE f text pageNum = [] := by
  intro f text p h
  unfold extractTableDataFromTextE
  apply lineLoop_fail
  rcases h with ⟨l, hl, hfail⟩
  unfold qualLines at hl
  have hm := List.mem_filter.mp hl
  exact ⟨l, hm.1, hm.2, hfail⟩

/-- C5 witness: the amended theorem applied to a concrete two-line page whose
second qualifying line throws. -/
theorem c5_line_parser_amended_witness :
    (∃ l ∈ qualLines
          "15/04/2024 ACH DEBIT:TXV/G4951885 500.00 86040.65\n16/04/2024 BAD 1.00 2.00",
        exOk ((fun l : String => if l = "16/04/2024 BAD 1.00 2.00" then Except.error ()
          else Except.ok (extractTransactionFromLine l)) (String.mk l)) = false) ∧
    extractTableDataFromTextE
        (fun l : String => if l = "16/04/2024 BAD 1.00 2.00" then Except.error ()
          else Except.ok (extractTransactionFromLine l))
        "15/04/2024 ACH DEBIT:TXV/G4951885 500.00 86040.65\n16/04/2024 BAD 1.00 2.00" 2 = [] :=
  ⟨by decide,
    c5_line_parser_amended
      (fun l : String => if l = "16/04/2024 BAD 1.00 2.00" then Except.error ()
        else Except.ok (extractTransactionFromLine l))
      "15/04/2024 ACH DEBIT:TXV/G4951885 500.00 86040.65\n16/04/2024 BAD 1.00 2.00" 2
      (by decide)⟩

/-- C6 counterexample: in a ten-page OCR job, a cancellation signalled after
thirteen long operations, that is between the recognition of page three and
the recognition of page four (the ten rasterizations having already
completed), does not stop the recognition loop: pages four through ten are
still recognized, refuting the claim that no page at or beyond four is
rasterized or recognized; the flag does suppress the result callback. -/
theorem c6_cancellation_counterexample :
    OcrEv.recognize 4 ∈ processScannedPdfEvents 13 10 ∧
    OcrEv.recognize 10 ∈ processScannedPdfEvents 13 10 ∧
    OcrEv.dataExtracted ∉ processScannedPdfEvents 13 10 := by
  decide

/-- C6 (amended): a cancellation observed at a rasterization page boundary
(before all pages are rasterized) stops the invocation there: the trace is
exactly the opening progress update and the completed rasterizations, with no
recognition and no result callback. A cancellation signalled only after the
rasterization phase does not stop the recognition loop: every page is still
recognized, and the result callback fires exactly when the cancellation comes
after all recognitions as well. -/
theorem c6_cancellation_amended :
    (∀ numPages cancelAt : Nat, cancelAt < min numPages 10 →
        processScannedPdfEvents cancelAt numPages =
          OcrEv.progress :: (List.range cancelAt).flatMap
            (fun k => [OcrEv.progress, OcrEv.raster (k + 1), OcrEv.progress])) ∧
    (∀ numPages cancelAt : Nat, min numPages 10 < cancelAt →
        (∀ i : Nat, 1 ≤ i → i ≤ min numPages 10 →
            OcrEv.recognize i ∈ processScannedPdfEvents cancelAt numPages) ∧
        (OcrEv.dataExtracted ∈ processScannedPdfEvents cancelAt numPages ↔
            2 * min numPages 10 < cancelAt)) := by
  constructor
  · intro numPages cancelAt h
    have hr := rasterLoop_abort cancelAt (min numPages 10) 0 (Nat.zero_le _) (by omega)
    simp only [processScannedPdfEvents, hr]
    simp [List.range_eq_range']
  · intro numPages cancelAt h
    have hr := rasterLoop_complete cancelAt (min numPages 10) 0 (by omega)
    simp only [processScannedPdfEvents, hr]
    rw [if_neg (by omega : ¬ cancelAt ≤ min numPages 10)]
    by_cases h2 : cancelAt ≤ min numPages 10 + min numPages 10
    · rw [if_pos h2]
      constructor
      · intro i h1 hi
        apply List.mem_append_right
        apply List.mem_cons_of_mem
        have hm := recogLoop_mem cancelAt (min numPages 10) (min numPages 10) 1 (i - 1)
          (by omega)
        have he : 1 + (i - 1) = i := by omega
        rwa [he] at hm
      · constructor
        · intro hmem
          exfalso
          rcases List.mem_append.mp hmem with hm | hm
          · rcases List.mem_cons.mp hm with he | hm
            · cases he
            · exact flatMap_raster_no_dataExtracted _ hm
          · rcases List.mem_cons.mp hm with he | hm
            · cases he
            · exact recogLoop_no_dataExtracted cancelAt (min numPages 10) (min numPages 10) 1 hm
        · intro hc
          omega
    · rw [if_neg h2]
      constructor
      · intro i h1 hi
        apply List.mem_append_left
        apply List.mem_append_right
        apply List.mem_cons_of_mem
        have hm := recogLoop_mem cancelAt (min numPages 10) (min numPages 10) 1 (i - 1)
          (by omega)
        have he : 1 + (i - 1) = i := by omega
        rwa [he] at hm
      · constructor
        · intro _
          omega
        · intro _
          apply List.mem_append_right
          apply List.mem_cons_of_mem
          apply List.mem_append_right
          simp

/-- C6 witness: the amended theorem applied to a cancellation between
rasterization of page three and page four of a ten-page job, and to a
cancellation during the recognition phase of the same job. -/
theorem c6_cancellation_amended_witness :
    (processScannedPdfEvents 3 10 =
      OcrEv.progress :: (List.range 3).flatMap
        (fun k => [OcrEv.progress, OcrEv.raster (k + 1), OcrEv.progress])) ∧
    ((∀ i : Nat, 1 ≤ i → i ≤ min 10 10 →
        OcrEv.recognize i ∈ processScannedPdfEvents 13 10) ∧
      (OcrEv.dataExtracted ∈ processScannedPdfEvents 13 10 ↔ 2 * min 10 10 < 13)) :=
  ⟨c6_cancellation_amended.1 10 3 (by decide),
    c6_cancellation_amended.2 10 13 (by decide)⟩

/-- C7: when per-page parsing of a text-layer document accumulates zero
records, the backend falls back to re-parsing the whole-document concatenation
(the page texts each followed by the page-break marker, which the line parser
strips) as page one; and when that fallback also yields zero records the
invocation terminates with the extraction-empty error delivered to the caller,
never as an empty success result. -/
theorem c7_fallback_then_error (pages : List String)
    (hacc : pageRecordsAccum pages = []) :
    (processTextBasedPdf pages =
      (if (extractTableDataFromText (extractAllText pages) 1).length > 0 then
        TextOutcome.data
          (jsStableSort cmpTxnInline (extractTableDataFromText (extractAllText pages) 1))
      else TextOutcome.error "Failed to extract text from the PDF. Please try using OCR mode.")) ∧
    (extractTableDataFromText (extractAllText pages) 1 = [] →
      processTextBasedPdf pages =
        TextOutcome.error "Failed to extract text from the PDF. Please try using OCR mode." ∧
      ∀ rs : List Txn, processTextBasedPdf pages ≠ TextOutcome.data rs) := by
  have hmain : processTextBasedPdf pages =
      (if (extractTableDataFromText (extractAllText pages) 1).length > 0 then
        TextOutcome.data
          (jsStableSort cmpTxnInline (extractTableDataFromText (extractAllText pages) 1))
      else TextOutcome.error "Failed to extract text from the PDF. Please try using OCR mode.") := by
    unfold processTextBasedPdf
    rw [hacc]
    rfl
  refine ⟨hmain, ?_⟩
  intro hfb
  rw [hmain, hfb]
  refine ⟨rfl, ?_⟩
  intro rs hc
  exact TextOutcome.noConfusion hc

/-- C7 witness: a one-page document with no transaction line accumulates zero
records, the fallback also yields zero records, and the outcome is the error,
via the theorem. -/
theorem c7_fallback_then_error_witness :
    pageRecordsAccum ["hello world"] = [] ∧
    (processTextBasedPdf ["hello world"] =
      TextOutcome.error "Failed to extract text from the PDF. Please try using OCR mode." ∧
      ∀ rs : List Txn, processTextBasedPdf ["hello world"] ≠ TextOutcome.data rs) :=
  ⟨by decide, (c7_fallback_then_error ["hello world"] (by decide)).2 (by decide)⟩

/-- C8 counterexample: an invocation that emits a delivered progress update
every ten seconds from just after start to just before its end at one hundred
fifty seconds keeps emitting genuine progress (every gap is far below both
timer delays), and the outer timer indeed never fires; yet the inner
two-minute timer fires, because no code path re-arms it on progress, refuting
the claim that both timers are reset by progress so that neither fires on a
progressing invocation. -/
theorem c8_timers_counterexample :
    (deliveredTimes ((List.range 15).map (fun k => (k * 10000 + 101, 50)))).length = 15 ∧
    gapsWithin 10101
        (deliveredTimes ((List.range 15).map (fun k => (k * 10000 + 101, 50)))) 150000 = true ∧
    outerTimerFires
        (deliveredTimes ((List.range 15).map (fun k => (k * 10000 + 101, 50)))) 150000 = false ∧
    innerTimerFires 150000 = true := by
  decide

/-- C8 (amended): the outer three-minute timer is re-armed by every delivered
progress update, so it never fires on an invocation whose delivered updates
and end are never more than three minutes apart; the inner two-minute timer is
never re-armed by progress and fires exactly when the extraction runs longer
than two minutes, progressing or not. -/
theorem c8_timers_amended :
    (∀ (ts : List Nat) (tEnd : Nat), gapsWithin 180000 ts tEnd = true →
        outerTimerFires ts tEnd = false) ∧
    (∀ tEnd : Nat, innerTimerFires tEnd = decide (120000 < tEnd)) := by
  constructor
  · intro ts tEnd hg
    unfold outerTimerFires
    have := oneShotTimer_no_fire 180000 ts 0 tEnd hg
    simpa using this
  · intro tEnd
    rfl

/-- C8 witness: the amended theorem applied to an invocation with two
delivered updates inside the three-minute bound, and to a four-minute end
time for the inner timer. -/
theorem c8_timers_amended_witness :
    outerTimerFires [100000, 200000] 300000 = false ∧
    innerTimerFires 240000 = decide (120000 < 240000) :=
  ⟨c8_timers_amended.1 [100000, 200000] 300000 (by decide), c8_timers_amended.2 240000⟩

/-- C9 counterexample: on the CSV scenario input the header-driven mapping
binds the Credit column to the value 50000.00 of the data line, not to the
empty string the claim states; the Debit column is the one bound to the empty
string. -/
theorem c9_csv_counterexample :
    (((parseCsvRows
          ("Date,Description,Debit,Credit,Balance\n" ++
            "14/04/2024,FT/0000885394301/15894005677/CR CARD PYMT,,50000.00,86540.65")).getD
        []).headI).lookup "Credit" = some "50000.00" ∧
    (((parseCsvRows
          ("Date,Description,Debit,Credit,Balance\n" ++
            "14/04/2024,FT/0000885394301/15894005677/CR CARD PYMT,,50000.00,86540.65")).getD
        []).headI).lookup "Credit" ≠ some "" := by
  decide

/-- C9 (amended): the CSV manual-entry path maps the scenario line to the
record with Date 14/04/2024, the full description, empty Debit, Credit
50000.00 and Balance 86540.65. -/
theorem c9_csv_amended :
    parseCsvRows
        ("Date,Description,Debit,Credit,Balance\n" ++
          "14/04/2024,FT/0000885394301/15894005677/CR CARD PYMT,,50000.00,86540.65") =
      some [[("Date", "14/04/2024"),
             ("Description", "FT/0000885394301/15894005677/CR CARD PYMT"),
             ("Debit", ""), ("Credit", "50000.00"), ("Balance", "86540.65")]] := by
  decide

/-- C10: on every line with at least two amount matches, when the
second-to-last amount (trimmed) contains a minus sign the emitted Debit value
is that amount with the first minus sign removed, while the Balance value is
the last match exactly as matched, trimmed, with any sign preserved; and when
it contains no minus sign and the working line lacks the debit substring, the
Credit value is the second-to-last match exactly as matched and trimmed. -/
theorem c10_sign_normalization :
    (∀ (s : String) (b a : List Char) (rest : List (List Char)),
        (amountsOf s.data).reverse = b :: a :: rest →
        (trimChars a).contains '-' = true →
        extractTransactionFromLine s =
          { Date := dateFieldOf s.data,
            Balance := some (String.mk (trimChars b)),
            Debit := some (String.mk (stripMinusFirst (trimChars a))),
            Description := some (String.mk
              (trimChars (removeAll (lineAfterDate s.data) (amountsOf s.data)))) }) ∧
    (∀ (s : String) (b a : List Char) (rest : List (List Char)),
        (amountsOf s.data).reverse = b :: a :: rest →
        (trimChars a).contains '-' = false →
        debitLine (lineAfterDate s.data) = false →
        extractTransactionFromLine s =
          { Date := dateFieldOf s.data,
            Balance := some (String.mk (trimChars b)),
            Credit := some (String.mk (trimChars a)),
            Description := some (String.mk
              (trimChars (removeAll (lineAfterDate s.data) (amountsOf s.data)))) }) := by
  constructor
  · intro s b a rest h hm
    simp only [extractTransactionFromLine, classifyTxn, h, hm]
    simp
  · intro s b a rest h hm hd
    simp only [extractTransactionFromLine, classifyTxn, h, hm, hd]
    simp

/-- C10 witness: the theorem applied to a concrete line whose second-to-last
amount carries a minus sign. -/
theorem c10_sign_normalization_witness :
    ((amountsOf ("01/02/2024 A -500.00 100.00" : String).data).reverse =
        (" 100.00" : String).data :: (" -500.00" : String).data :: [] ∧
      (trimChars (" -500.00" : String).data).contains '-' = true) ∧
    extractTransactionFromLine "01/02/2024 A -500.00 100.00" =
      { Date := some "01/02/2024", Balance := some "100.00", Debit := some "500.00",
        Description := some "A" } :=
  ⟨by decide,
    c10_sign_normalization.1 "01/02/2024 A -500.00 100.00"
      (" 100.00" : String).data (" -500.00" : String).data [] (by decide) (by decide)⟩
